import Mathlib

/-!
Verification of the WordOracle component of the textarenamcp repository.

The repository ships a README describing the SpellingBee rules and a demo
notebook driving the game runners.  The WordOracle itself (vocabulary load,
`isWord`, `isValidAnswer`, `allValidAnswers`) and the offline runner are not
present in the source tree, so they are modelled here from the design
specification.  Strings are embedded as lists of characters.
-/

namespace TextArenaMCP

/-- Strings are modelled shallowly as lists of characters. -/
abbrev Str := List Char

/-- Modelled from the spec: whitespace recognition used by trimming
(`isWord` "normalizes candidate (lowercase, trim)"); ASCII space, tab,
newline and carriage return. -/
def isWs (c : Char) : Bool :=
  c.toNat = 32 || c.toNat = 9 || c.toNat = 10 || c.toNat = 13

/-- Modelled from the spec: ASCII lowercase folding of a single character
("implementers should treat ASCII lowercase folding as the default"). -/
def lowerChar (c : Char) : Char :=
  if 65 ≤ c.toNat && c.toNat ≤ 90 then Char.ofNat (c.toNat + 32) else c

/-- Modelled from the spec: lowercasing of a candidate string. -/
def toLower (s : Str) : Str := s.map lowerChar

/-- Modelled from the spec: trimming leading and trailing whitespace from a
candidate string. -/
def trim (s : Str) : Str :=
  ((s.dropWhile isWs).reverse.dropWhile isWs).reverse

/-- Modelled from the spec: normalization applied before vocabulary lookup,
"lowercase, trim". -/
def normalize (s : Str) : Str := toLower (trim s)

/-- Modelled from the spec: the WordOracle holds the Vocabulary, "an
immutable set of lowercase strings, built once from a static word source at
process start". -/
structure WordOracle where
  vocab : List Str
deriving DecidableEq

/-- Modelled from the spec: a LetterConfiguration is "a center letter
(single character) plus a set of permitted letters"; the center is optional
so that the malformed "null center letter" input of the error-handling
section is representable. -/
structure LetterConfiguration where
  center : Option Char
  letters : List Char
deriving DecidableEq

/-- Modelled from the spec: `isWord` "normalizes candidate (lowercase,
trim) and reports set membership". -/
def isWord (o : WordOracle) (candidate : Str) : Bool :=
  o.vocab.contains (normalize candidate)

/-- Modelled from the spec: `isValidAnswer` "returns true iff the candidate
satisfies all SpellingBee constraints (length, center-letter inclusion,
alphabet restriction) AND `isWord(candidate)` is true", failing closed on a
null center letter. -/
def isValidAnswer (o : WordOracle) (candidate : Str)
    (config : LetterConfiguration) : Bool :=
  match config.center with
  | none => false
  | some ctr =>
      decide (4 ≤ candidate.length) &&
      candidate.contains ctr &&
      candidate.all (fun ch => config.letters.contains ch) &&
      isWord o candidate

/-- Modelled from the spec: `allValidAnswers` "produces the lazy/finite set
of every Vocabulary entry satisfying the constraint predicate for config". -/
def allValidAnswers (o : WordOracle) (config : LetterConfiguration) :
    List Str :=
  o.vocab.filter (fun w => isValidAnswer o w config)

/-- Modelled from the spec: the external word source consumed at
initialization, which may be "unavailable/corrupt". -/
inductive WordSource where
  | unavailable
  | corrupt
  | available (words : List Str)

/-- Modelled from the spec: the single fatal error category,
"initialization failure (word source unavailable/corrupt)". -/
inductive InitError where
  | initFailure
deriving DecidableEq

/-- Modelled from the spec: vocabulary construction at process start;
fails fatally iff the word source cannot be loaded, otherwise builds the
immutable set of lowercase strings. -/
def loadVocabulary : WordSource → Except InitError WordOracle
  | .unavailable => .error .initFailure
  | .corrupt => .error .initFailure
  | .available ws => .ok ⟨ws.map toLower⟩

/-- Modelled from the spec: the three query types the WordOracle exposes. -/
inductive Query where
  | qIsWord (candidate : Str)
  | qIsValidAnswer (candidate : Str) (config : LetterConfiguration)
  | qAllValidAnswers (config : LetterConfiguration)
deriving DecidableEq

/-- Modelled from the spec: a query reply, a boolean or an enumeration. -/
inductive Reply where
  | boolReply (b : Bool)
  | listReply (ws : List Str)
deriving DecidableEq

/-- Modelled from the spec: a query-time error, which the design rules out
("never an exception"); present in the model so that totality of query
serving is a statable property rather than a typing triviality. -/
inductive QueryError where
  | exception
deriving DecidableEq

/-- Modelled from the spec: serving one query against the oracle state;
queries read the vocabulary and never mutate it. -/
def serveQuery (o : WordOracle) : Query → WordOracle × Reply
  | .qIsWord c => (o, .boolReply (isWord o c))
  | .qIsValidAnswer c k => (o, .boolReply (isValidAnswer o c k))
  | .qAllValidAnswers k => (o, .listReply (allValidAnswers o k))

/-- Modelled from the spec: serving a sequence of queries, threading the
oracle state from one query to the next as the process would. -/
def serve (o : WordOracle) : List Query → WordOracle × List Reply
  | [] => (o, [])
  | q :: qs =>
      let p := serveQuery o q
      let r := serve p.1 qs
      (r.1, p.2 :: r.2)

/-- Modelled from the spec: serving one query in an error-aware setting;
"all query operations are total functions over their input domain and never
fail at query time", so every branch answers with a result. -/
def runQueryE (o : WordOracle) : Query → Except QueryError Reply
  | .qIsWord c => .ok (.boolReply (isWord o c))
  | .qIsValidAnswer c k => .ok (.boolReply (isValidAnswer o c k))
  | .qAllValidAnswers k => .ok (.listReply (allValidAnswers o k))

/-- Modelled from the spec: the outcome the external game framework
produces for one two-player game, a reward for each of the two players. -/
structure GameOutcome where
  reward0 : Int
  reward1 : Int
deriving DecidableEq

/-- Modelled from the spec: `run_offline_game` (absent from the source
tree; the notebook calls it) is orchestration glue that constructs the two
agents named by agent ids, hands them to the external game loop, and
returns the per-player rewards mapping, indexable by player number. -/
def run_offline_game (gameLoop : Str → Str → GameOutcome)
    (agent_id_1 agent_id_2 : Str) : List Int :=
  let outcome := gameLoop agent_id_1 agent_id_2
  [outcome.reward0, outcome.reward1]

/-- The fixture vocabulary of the spec's worked example:
{"plead","apple","peal"}. -/
def sampleOracle : WordOracle :=
  ⟨[['p','l','e','a','d'], ['a','p','p','l','e'], ['p','e','a','l']]⟩

/-- The fixture configuration of the spec's worked example:
center 'p', permitted letters {p,l,e,a,d}. -/
def sampleConfig : LetterConfiguration :=
  ⟨some 'p', ['p','l','e','a','d']⟩

/-! ### Helper lemmas -/

theorem toNat_ofNat_valid (n : Nat) (h : n < 55296) : (Char.ofNat n).toNat = n := by
  rw [Char.ofNat, dif_pos (Or.inl h)]
  simp [Char.ofNatAux, Char.toNat, UInt32.toNat,
    Nat.mod_eq_of_lt (by omega : n < 4294967296)]

theorem isWs_lowerChar (c : Char) : isWs (lowerChar c) = isWs c := by
  rw [lowerChar]
  split
  case isTrue h =>
    rw [Bool.and_eq_true, decide_eq_true_iff, decide_eq_true_iff] at h
    have h32 : (Char.ofNat (c.toNat + 32)).toNat = c.toNat + 32 :=
      toNat_ofNat_valid _ (by omega)
    have l : isWs (Char.ofNat (c.toNat + 32)) = false := by
      simp [isWs, h32]; omega
    have r : isWs c = false := by
      simp [isWs]; omega
    rw [l, r]
  case isFalse h => rfl

theorem dropWhile_length_le (p : Char → Bool) (l : List Char) :
    (l.dropWhile p).length ≤ l.length := by
  induction l with
  | nil => exact Nat.le_refl _
  | cons a as ih =>
    rw [List.dropWhile_cons]
    split
    · exact Nat.le_trans ih (Nat.le_succ _)
    · exact Nat.le_refl _

theorem dropWhile_eq_self_of_length (p : Char → Bool) (l : List Char)
    (h : (l.dropWhile p).length = l.length) : l.dropWhile p = l := by
  cases l with
  | nil => rfl
  | cons a as =>
    rw [List.dropWhile_cons] at h ⊢
    by_cases hp : p a = true
    · rw [if_pos hp] at h
      have := dropWhile_length_le p as
      simp at h
      omega
    · rw [if_neg hp]

theorem dropWhile_eq_nil_of_forall (p : Char → Bool) (l : List Char)
    (h : ∀ a ∈ l, p a = true) : l.dropWhile p = [] := by
  induction l with
  | nil => rfl
  | cons a as ih =>
    rw [List.dropWhile_cons, if_pos (h a (List.mem_cons_self a as))]
    exact ih fun x hx => h x (List.mem_cons_of_mem a hx)

theorem dropWhile_append_of_forall (p : Char → Bool) (l₁ l₂ : List Char)
    (h : ∀ a ∈ l₁, p a = true) :
    List.dropWhile p (l₁ ++ l₂) = List.dropWhile p l₂ := by
  induction l₁ with
  | nil => rfl
  | cons a as ih =>
    rw [List.cons_append, List.dropWhile_cons,
      if_pos (h a (List.mem_cons_self a as))]
    exact ih fun x hx => h x (List.mem_cons_of_mem a hx)

theorem dropWhile_append_left (p : Char → Bool) (l₁ l₂ : List Char)
    (h : l₁.dropWhile p = l₁) (hne : l₁ ≠ []) :
    List.dropWhile p (l₁ ++ l₂) = l₁ ++ l₂ := by
  cases l₁ with
  | nil => exact absurd rfl hne
  | cons a as =>
    have hp : p a = false := by
      by_cases hpa : p a = true
      · rw [List.dropWhile_cons, if_pos hpa] at h
        have h1 := dropWhile_length_le p as
        have h2 := congrArg List.length h
        simp at h2
        omega
      · exact Bool.eq_false_iff.mpr hpa
    rw [List.cons_append, List.dropWhile_cons, if_neg (by rw [hp]; exact Bool.false_ne_true)]

theorem trim_parts_of_length (s : Str) (h : (trim s).length = s.length) :
    s.dropWhile isWs = s ∧ s.reverse.dropWhile isWs = s.reverse := by
  have h0 : (trim s).length =
      ((s.dropWhile isWs).reverse.dropWhile isWs).length := by
    rw [trim, List.length_reverse]
  have h1 : ((s.dropWhile isWs).reverse.dropWhile isWs).length ≤
      (s.dropWhile isWs).length := by
    have := dropWhile_length_le isWs (s.dropWhile isWs).reverse
    rwa [List.length_reverse] at this
  have h2 : (s.dropWhile isWs).length ≤ s.length := dropWhile_length_le isWs s
  have e1 : (s.dropWhile isWs).length = s.length := by omega
  have hd1 : s.dropWhile isWs = s := dropWhile_eq_self_of_length isWs s e1
  have e2 : (s.reverse.dropWhile isWs).length = s.reverse.length := by
    rw [hd1] at h0
    rw [List.length_reverse]
    omega
  exact ⟨hd1, dropWhile_eq_self_of_length isWs s.reverse e2⟩

theorem trim_eq_self_of_length (s : Str) (h : (trim s).length = s.length) :
    trim s = s := by
  obtain ⟨h1, h2⟩ := trim_parts_of_length s h
  rw [trim, h1, h2, List.reverse_reverse]

theorem trim_parts (s : Str) (h : trim s = s) :
    s.dropWhile isWs = s ∧ s.reverse.dropWhile isWs = s.reverse :=
  trim_parts_of_length s (by rw [h])

theorem dropWhile_toLower (l : Str) :
    (toLower l).dropWhile isWs = toLower (l.dropWhile isWs) := by
  rw [toLower, toLower, List.dropWhile_map]
  have : (isWs ∘ lowerChar) = isWs := funext isWs_lowerChar
  rw [this]

theorem trim_toLower (s : Str) : trim (toLower s) = toLower (trim s) := by
  have hws : (isWs ∘ lowerChar) = isWs := funext isWs_lowerChar
  simp only [trim, toLower, List.dropWhile_map, hws, ← List.map_reverse]

theorem trim_eq_self_of_toLower (v w : Str) (hv : toLower v = w)
    (hw : trim w = w) : trim v = v := by
  have h1 : toLower (trim v) = toLower v := by
    rw [← trim_toLower, hv, hw]
  have hlen : (trim v).length = v.length := by
    have h2 := congrArg List.length h1
    simpa [toLower] using h2
  exact trim_eq_self_of_length v hlen

theorem trim_pad (v pre post : Str) (hv : trim v = v)
    (hpre : ∀ c ∈ pre, isWs c = true) (hpost : ∀ c ∈ post, isWs c = true) :
    trim (pre ++ (v ++ post)) = v := by
  obtain ⟨hv1, hv2⟩ := trim_parts v hv
  rw [trim, dropWhile_append_of_forall isWs pre _ hpre]
  cases hv0 : v with
  | nil =>
    rw [List.nil_append, dropWhile_eq_nil_of_forall isWs post hpost]
    rfl
  | cons a as =>
    rw [← hv0,
      dropWhile_append_left isWs v post hv1 (by rw [hv0]; exact List.cons_ne_nil a as),
      List.reverse_append,
      dropWhile_append_of_forall isWs post.reverse v.reverse
        (fun c hc => hpost c (List.mem_reverse.mp hc)),
      hv2, List.reverse_reverse]

theorem serveQuery_fst (o : WordOracle) (q : Query) : (serveQuery o q).1 = o := by
  cases q <;> rfl

theorem serve_fst (o : WordOracle) (qs : List Query) : (serve o qs).1 = o := by
  induction qs with
  | nil => rfl
  | cons q qs ih => simp only [serve, serveQuery_fst]; exact ih

theorem serve_snd (o : WordOracle) (qs : List Query) :
    (serve o qs).2 = qs.map (fun q => (serveQuery o q).2) := by
  induction qs with
  | nil => rfl
  | cons q qs ih => simp only [serve, serveQuery_fst, List.map_cons]; exact congrArg _ ih

/-! ### Claim theorems -/

/-- C1: for every candidate and every configuration whose center letter is
present and contained in the permitted set, `isValidAnswer` is true iff the
candidate is at least 4 long, contains the center letter, draws every
character from the permitted set, and passes `isWord`. -/
theorem isValidAnswer_iff (o : WordOracle) (c : Str) (k : LetterConfiguration)
    (ctr : Char) (hctr : k.center = some ctr) (_hmem : ctr ∈ k.letters) :
    isValidAnswer o c k = true ↔
      4 ≤ c.length ∧ ctr ∈ c ∧ (∀ ch ∈ c, ch ∈ k.letters) ∧ isWord o c = true := by
  simp [isValidAnswer, hctr, List.all_eq_true, List.contains, List.elem_iff, and_assoc]

/-- Witness for C1 at the spec's fixture. -/
theorem isValidAnswer_iff_witness :
    isValidAnswer sampleOracle ['p','l','e','a','d'] sampleConfig = true ↔
      4 ≤ (['p','l','e','a','d'] : Str).length ∧
      'p' ∈ (['p','l','e','a','d'] : Str) ∧
      (∀ ch ∈ (['p','l','e','a','d'] : Str), ch ∈ sampleConfig.letters) ∧
      isWord sampleOracle ['p','l','e','a','d'] = true :=
  isValidAnswer_iff sampleOracle ['p','l','e','a','d'] sampleConfig 'p'
    rfl (by decide)

/-- C2: `isWord` reports vocabulary membership of the normalized
(lowercased, trimmed) candidate: it is true exactly when the normalization
is in the vocabulary, hence true for any vocabulary word under any casing
or whitespace padding, and false for every string (the empty one included)
whose normalization is not in the vocabulary; it is a total function, so
no input produces an error. -/
theorem isWord_normalizes (o : WordOracle) :
    (∀ s : Str, isWord o s = true ↔ normalize s ∈ o.vocab) ∧
    (∀ w : Str, w ∈ o.vocab → trim w = w →
      ∀ v pre post : Str, toLower v = w →
        (∀ c ∈ pre, isWs c = true) → (∀ c ∈ post, isWs c = true) →
        isWord o (pre ++ (v ++ post)) = true) ∧
    (∀ s : Str, normalize s ∉ o.vocab → isWord o s = false) ∧
    (([] : Str) ∉ o.vocab → isWord o [] = false) := by
  have hmem : ∀ s : Str, isWord o s = true ↔ normalize s ∈ o.vocab := by
    intro s
    simp [isWord, List.contains, List.elem_iff]
  refine ⟨hmem, ?_, ?_, ?_⟩
  · intro w hw htr v pre post hv hpre hpost
    rw [hmem]
    have hvv : trim v = v := trim_eq_self_of_toLower v w hv htr
    rw [normalize, trim_pad v pre post hvv hpre hpost, hv]
    exact hw
  · intro s hs
    rw [Bool.eq_false_iff]
    intro ht
    exact hs ((hmem s).mp ht)
  · intro h
    rw [Bool.eq_false_iff]
    intro ht
    exact h ((hmem []).mp ht)

/-- Witness for C2: a padded, mixed-case variant of "cat" is accepted by
an oracle whose vocabulary holds "cat". -/
theorem isWord_normalizes_witness :
    isWord ⟨[['c','a','t']]⟩ ([' '] ++ (['C','A','t'] ++ [' '])) = true :=
  (isWord_normalizes ⟨[['c','a','t']]⟩).2.1 ['c','a','t'] (by decide)
    (by decide) ['C','A','t'] [' '] [' '] (by decide) (by decide) (by decide)

/-- C3: `isValidAnswer` fails closed: false on the empty candidate, false
on a null center letter, and false whenever the candidate uses a letter
outside the permitted set, regardless of vocabulary membership. -/
theorem isValidAnswer_fails_closed (o : WordOracle) :
    (∀ k : LetterConfiguration, isValidAnswer o [] k = false) ∧
    (∀ (c : Str) (letters : List Char),
      isValidAnswer o c ⟨none, letters⟩ = false) ∧
    (∀ (c : Str) (k : LetterConfiguration) (ch : Char),
      ch ∈ c → ch ∉ k.letters → isValidAnswer o c k = false) := by
  refine ⟨fun k => ?_, fun c letters => rfl, fun c k ch hch hnot => ?_⟩
  · cases hk : k.center <;> simp [isValidAnswer, hk]
  · cases hk : k.center with
    | none => simp [isValidAnswer, hk]
    | some ctr =>
      rw [Bool.eq_false_iff]
      intro htrue
      simp only [isValidAnswer, hk, Bool.and_eq_true, List.all_eq_true] at htrue
      exact hnot (List.elem_iff.mp (htrue.1.2 ch hch))

/-- Witness for C3 at a candidate using the forbidden letter 'z'. -/
theorem isValidAnswer_fails_closed_witness :
    isValidAnswer sampleOracle ['p','e','a','l','z'] sampleConfig = false :=
  (isValidAnswer_fails_closed sampleOracle).2.2 ['p','e','a','l','z']
    sampleConfig 'z' (by decide) (by decide)

/-- C4 counterexample: on the spec's fixture the claimed pair of outcomes
(true for "plead", false for "peal") does not hold, because "peal" does
contain the center letter 'p' and satisfies every constraint. -/
theorem example_claim_false :
    ¬ (isValidAnswer sampleOracle ['p','l','e','a','d'] sampleConfig = true ∧
       isValidAnswer sampleOracle ['p','e','a','l'] sampleConfig = false) := by
  decide

/-- C4 (amended): on the spec's fixture, `isValidAnswer` returns true for
"plead" and also true for "peal". -/
theorem example_evaluations :
    isValidAnswer sampleOracle ['p','l','e','a','d'] sampleConfig = true ∧
    isValidAnswer sampleOracle ['p','e','a','l'] sampleConfig = true := by
  decide

/-- C5: the vocabulary is never mutated by query serving: after any query
sequence the oracle state equals the initial one, and every reply is the
one computed against the initial oracle. -/
theorem vocabulary_immutable (o : WordOracle) (qs : List Query) :
    (serve o qs).1 = o ∧
    (serve o qs).2 = qs.map (fun q => (serveQuery o q).2) :=
  ⟨serve_fst o qs, serve_snd o qs⟩

/-- C6: every query operation is total: serving any query against any
oracle produces a reply and never an error. -/
theorem queries_total (o : WordOracle) (q : Query) :
    ∃ r : Reply, runQueryE o q = .ok r := by
  cases q <;> exact ⟨_, rfl⟩

/-- C7: `allValidAnswers` returns exactly the vocabulary entries satisfying
the constraint predicate. -/
theorem allValidAnswers_mem (o : WordOracle) (k : LetterConfiguration)
    (w : Str) :
    w ∈ allValidAnswers o k ↔ w ∈ o.vocab ∧ isValidAnswer o w k = true := by
  simp [allValidAnswers, List.mem_filter]

/-- C8: initialization failure is the only fatal error: a bad word source
aborts startup, a good one yields an oracle, and no query ever errors. -/
theorem init_only_fatal :
    (loadVocabulary .unavailable = .error .initFailure ∧
     loadVocabulary .corrupt = .error .initFailure) ∧
    (∀ ws : List Str, ∃ o, loadVocabulary (.available ws) = .ok o) ∧
    (∀ (o : WordOracle) (q : Query) (e : QueryError),
      runQueryE o q ≠ .error e) := by
  refine ⟨⟨rfl, rfl⟩, fun ws => ⟨_, rfl⟩, fun o q e => ?_⟩
  cases q <;> simp [runQueryE]

/-- C9: queries are deterministic: in any served sequence, two identical
queries receive identical replies, whatever other queries are interleaved
between them. -/
theorem queries_deterministic (o : WordOracle) (qs : List Query)
    (i j : Nat) (q : Query) (hi : qs[i]? = some q) (hj : qs[j]? = some q) :
    (serve o qs).2[i]? = (serve o qs).2[j]? := by
  rw [serve_snd, List.getElem?_map, List.getElem?_map, hi, hj]

/-- Witness for C9: the same `isWord` query at positions 0 and 2. -/
theorem queries_deterministic_witness :
    (serve sampleOracle [Query.qIsWord ['p','e','a','l'],
      Query.qAllValidAnswers sampleConfig,
      Query.qIsWord ['p','e','a','l']]).2[0]? =
    (serve sampleOracle [Query.qIsWord ['p','e','a','l'],
      Query.qAllValidAnswers sampleConfig,
      Query.qIsWord ['p','e','a','l']]).2[2]? :=
  queries_deterministic sampleOracle _ 0 2 (Query.qIsWord ['p','e','a','l'])
    rfl rfl

/-- C10: `run_offline_game` returns a per-player rewards mapping indexable
by player number, with index 0 holding player 0's reward and index 1
holding player 1's reward as produced by the external game loop. -/
theorem run_offline_game_rewards (gameLoop : Str → Str → GameOutcome)
    (agent_id_1 agent_id_2 : Str) :
    (run_offline_game gameLoop agent_id_1 agent_id_2).length = 2 ∧
    (run_offline_game gameLoop agent_id_1 agent_id_2)[0]? =
      some (gameLoop agent_id_1 agent_id_2).reward0 ∧
    (run_offline_game gameLoop agent_id_1 agent_id_2)[1]? =
      some (gameLoop agent_id_1 agent_id_2).reward1 :=
  ⟨rfl, rfl, rfl⟩

end TextArenaMCP
